import Mathlib

/-!
Verification of the sanitization / extraction / preflight core of
`discord-to-slack-converter.py` against its specification.

The Python source is shallowly embedded: strings are `List Char` (wrapped in
`String` at the interfaces), parsed JSON values are an inductive `JsonVal`,
and each Python function of the core becomes a total Lean function of the
same name.  Regex substitutions (all of which are simple scanners in the
source) are embedded as explicit left-to-right scanners with the same
non-overlapping, leftmost-match semantics as `re.sub` / `str.replace`.
-/

namespace D2S

/-! ## Character classes and constants

Python's `re` module on `str` uses Unicode-aware classes.  The embedding
models the ASCII ranges exactly and, for `\w` (used by `sanitize_username`,
`strip_mentions`' word boundary and the code-fence language tag), also the
Latin-1 / Latin-Extended letter range, which is the part of the Unicode
table exercised here.  Explicitly ASCII regex classes in the source
(`[A-Za-z0-9_.-]`, `[a-z0-9_-]`, `[A-Za-z0-9._-]`) are modelled exactly. -/

/-- The backtick character (written via its code point). -/
def tick : Char := Char.ofNat 96

/-- The double-quote character. -/
def dq : Char := Char.ofNat 34

/-- The single-quote character. -/
def sq : Char := Char.ofNat 39

/-- The backslash character. -/
def bs : Char := Char.ofNat 92

def isAsciiDigit (c : Char) : Bool := decide (c.toNat ≥ 48) && decide (c.toNat ≤ 57)

def isAsciiLower (c : Char) : Bool := decide (c.toNat ≥ 97) && decide (c.toNat ≤ 122)

def isAsciiUpper (c : Char) : Bool := decide (c.toNat ≥ 65) && decide (c.toNat ≤ 90)

def isAsciiAlnum (c : Char) : Bool := isAsciiDigit c || isAsciiLower c || isAsciiUpper c

/-- Python regex `\w` on `str`: Unicode word characters.  Modelled for the
ASCII range plus the Latin-1 supplement / Latin Extended-A/B letters
(U+00C0..U+024F minus the two multiplication/division signs), the portion
of the Unicode table the claims exercise. -/
def isWordChar (c : Char) : Bool :=
  isAsciiAlnum c || c = '_' ||
    (decide (0xC0 ≤ c.toNat) && decide (c.toNat ≤ 0x24F) &&
      decide (c.toNat ≠ 0xD7) && decide (c.toNat ≠ 0xF7))

/-- Python `str.strip()` whitespace, modelled on the ASCII whitespace set. -/
def isSpacePy (c : Char) : Bool :=
  c = ' ' || c = '\t' || c = '\n' || c = '\x0b' || c = '\x0c' || c = '\r'

/-- `str.strip()`: drop leading and trailing whitespace. -/
def pyStrip (l : List Char) : List Char :=
  ((l.dropWhile isSpacePy).reverse.dropWhile isSpacePy).reverse

/-! ## The output patterns

`CHAN_RE = ^[a-z0-9_-]{1,80}$` and `USER_RE = ^[A-Za-z0-9._-]{1,80}$`,
as used both by the preflight validator and by the spec's invariants. -/

/-- Characters allowed by `CHAN_RE`. -/
def isChanChar (c : Char) : Bool := isAsciiLower c || isAsciiDigit c || c = '_' || c = '-'

/-- Characters allowed by `USER_RE`. -/
def isUserChar (c : Char) : Bool := isAsciiAlnum c || c = '.' || c = '_' || c = '-'

/-- `CHAN_RE.fullmatch`: `^[a-z0-9_-]{1,80}$`. -/
def matchesChanRe (s : String) : Bool :=
  !s.data.isEmpty && decide (s.data.length ≤ 80) && s.data.all isChanChar

/-- `USER_RE.fullmatch`: `^[A-Za-z0-9._-]{1,80}$`. -/
def matchesUserRe (s : String) : Bool :=
  !s.data.isEmpty && decide (s.data.length ≤ 80) && s.data.all isUserChar

/-! ## `sanitize_channel` -/

/-- `re.sub(r"-{2,}", "-", _)`: collapse each run of two or more hyphens
into a single hyphen (equivalently: drop every hyphen directly followed
by another hyphen). -/
def collapseHyphens : List Char → List Char
  | [] => []
  | [c] => [c]
  | c :: d :: rest =>
    if c = '-' && d = '-' then collapseHyphens (d :: rest)
    else c :: collapseHyphens (d :: rest)

/-- `str.strip("-")`: drop leading and trailing hyphens. -/
def stripHyphens (l : List Char) : List Char :=
  ((l.dropWhile (fun c => c = '-')).reverse.dropWhile (fun c => c = '-')).reverse

/-- Per-character step of `sanitize_channel` after lowering:
`replace(" ", "-").replace(".", "-")` followed by
`re.sub(r"[^a-z0-9_-]", "-", _)` (all single-character rewrites). -/
def chanNorm (c : Char) : Char :=
  if c = ' ' || c = '.' then '-'
  else if isChanChar c then c else '-'

/-- `sanitize_channel` from the source:
lowercase, strip, spaces/periods to hyphens, any char outside
`[a-z0-9_-]` to a hyphen, collapse hyphen runs, strip outer hyphens,
truncate to 80, defaulting to "general" when empty.
(`str.lower` is modelled on ASCII; every character left unlowered by the
model is outside `[a-z0-9_-]` and is rewritten to a hyphen just as its
Python-lowered form would be.) -/
def chanCore (s : String) : List Char :=
  (stripHyphens (collapseHyphens ((pyStrip (s.data.map Char.toLower)).map chanNorm))).take 80

def sanitize_channel (s : String) : String :=
  if (chanCore s).isEmpty then "general" else ⟨chanCore s⟩

/-! ## `sanitize_username` -/

/-- Characters kept as-is by `sanitize_username`'s replacement step:
`\w`, period, hyphen. -/
def isUserKeep (c : Char) : Bool := isWordChar c || c = '.' || c = '-'

/-- The strip / leading-drop / trailing-drop / replacement steps of
`sanitize_username`, before the alphanumeric-start check. -/
def userCore (u : String) : List Char :=
  ((((pyStrip u.data).dropWhile (fun c => !isWordChar c)).reverse.dropWhile
      (fun c => !isUserKeep c)).reverse).map (fun c => if isUserKeep c then c else '_')

/-- `sanitize_username` from the source:
strip, drop leading `[^\w]+`, drop trailing `[^\w.-]+`, replace remaining
`[^\w.-]` by underscore, default to "user_import" when empty or when the
first character is not ASCII alphanumeric, truncate to 80. -/
def sanitize_username (u : String) : String :=
  ⟨(match userCore u with
    | [] => "user_import".data
    | c :: rest => if isAsciiAlnum c then c :: rest else "user_import".data).take 80⟩

/-! ## A generic substitution scanner

Every substitution in the source (`re.sub` with the patterns below, and
`str.replace`) is a left-to-right scan with non-overlapping leftmost
matches, where scanning resumes after each replacement.  `scan step`
embeds that uniformly: at each position the `step` function either
matches — emitting replacement text and consuming the matched length
from the remainder — or the character is copied.  The fuel argument
(always instantiated with the list length) makes the recursion
structural, hence kernel-computable. -/

def scanF (step : Char → List Char → Option (List Char × Nat)) :
    Nat → List Char → List Char
  | _, [] => []
  | 0, l => l
  | fuel + 1, c :: rest =>
    match step c rest with
    | some (out, k) => out ++ scanF step fuel (rest.drop k)
    | none => c :: scanF step fuel rest

def scan (step : Char → List Char → Option (List Char × Nat)) (l : List Char) : List Char :=
  scanF step l.length l

theorem scanF_congr (step : Char → List Char → Option (List Char × Nat)) :
    ∀ f1 f2 l, l.length ≤ f1 → l.length ≤ f2 → scanF step f1 l = scanF step f2 l := by
  intro f1
  induction f1 with
  | zero =>
    intro f2 l h1 _
    have hl : l = [] := List.eq_nil_of_length_eq_zero (Nat.le_zero.mp h1)
    subst hl
    cases f2 <;> rfl
  | succ f ih =>
    intro f2 l h1 h2
    cases l with
    | nil => cases f2 <;> rfl
    | cons c rest =>
      cases f2 with
      | zero => simp at h2
      | succ g =>
        show scanF step (f + 1) (c :: rest) = scanF step (g + 1) (c :: rest)
        simp only [scanF]
        simp only [List.length_cons, Nat.add_le_add_iff_right] at h1 h2
        cases hs : step c rest with
        | none =>
          exact congrArg (c :: ·) (ih g rest h1 h2)
        | some ok =>
          obtain ⟨out, k⟩ := ok
          refine congrArg (out ++ ·) (ih g (rest.drop k) ?_ ?_) <;>
            simp only [List.length_drop] <;> omega

theorem scan_cons (step : Char → List Char → Option (List Char × Nat))
    (c : Char) (rest : List Char) :
    scan step (c :: rest) =
      match step c rest with
      | some (out, k) => out ++ scan step (rest.drop k)
      | none => c :: scan step rest := by
  show scanF step (rest.length + 1) (c :: rest) = _
  simp only [scanF]
  cases hs : step c rest with
  | none => rfl
  | some ok =>
    obtain ⟨out, k⟩ := ok
    exact congrArg (out ++ ·)
      (scanF_congr step rest.length (rest.drop k).length (rest.drop k)
        (by simp only [List.length_drop]; omega) (le_refl _))

theorem scan_nil (step : Char → List Char → Option (List Char × Nat)) :
    scan step [] = [] := rfl

theorem scan_append_none (step : Char → List Char → Option (List Char × Nat))
    (l1 l2 : List Char) (h : ∀ c ∈ l1, ∀ r : List Char, step c r = none) :
    scan step (l1 ++ l2) = l1 ++ scan step l2 := by
  induction l1 with
  | nil => rfl
  | cons c l1x ih =>
    rw [List.cons_append, scan_cons, h c (List.mem_cons_self _ _),
      ih (fun x hx r => h x (List.mem_cons_of_mem _ hx) r)]
    rfl

theorem scan_id_none (step : Char → List Char → Option (List Char × Nat))
    (l : List Char) (h : ∀ c ∈ l, ∀ r : List Char, step c r = none) :
    scan step l = l := by
  have h2 := scan_append_none step l [] h
  rw [List.append_nil] at h2
  rw [h2, scan_nil, List.append_nil]

/-! ## `strip_mentions`

Three sequential `re.sub` passes: `@everyone\b -> everyone`,
`@here\b -> here`, then `@([A-Za-z0-9_.-]{1,80}) -> \1`. -/

/-- Characters of the explicit mention class `[A-Za-z0-9_.-]`. -/
def isMentionChar (c : Char) : Bool := isAsciiAlnum c || c = '_' || c = '.' || c = '-'

/-- Match of `@tok` ending at a word boundary: the replacement is `tok`
(the `@` is dropped), consuming the token. -/
def wordTokStep (tok : List Char) (c : Char) (rest : List Char) : Option (List Char × Nat) :=
  if c = '@' && tok.isPrefixOf rest &&
      (match rest.drop tok.length with
       | [] => true
       | d :: _ => !isWordChar d) then
    some (tok, tok.length)
  else none

/-- `re.sub("@" ++ tok ++ "\b", tok, _)` for a literal word `tok`. -/
def subWordTok (tok : List Char) (l : List Char) : List Char := scan (wordTokStep tok) l

/-- Match of `@` followed by one to eighty mention-class characters
(greedy, capped at eighty): the replacement is the captured name. -/
def mentionStep (c : Char) (rest : List Char) : Option (List Char × Nat) :=
  if c = '@' then
    if ((rest.takeWhile isMentionChar).take 80).isEmpty then none
    else some ((rest.takeWhile isMentionChar).take 80,
               ((rest.takeWhile isMentionChar).take 80).length)
  else none

/-- `re.sub(r"@([A-Za-z0-9_.-]{1,80})", r"\1", _)`. -/
def subMention (l : List Char) : List Char := scan mentionStep l

/-- `strip_mentions` from the source. -/
def strip_mentions (s : String) : String :=
  if s.isEmpty then "" else
  ⟨subMention (subWordTok "here".data (subWordTok "everyone".data s.data))⟩

/-! ## `strip_code_fences` -/

/-- Match of a triple-backtick delimiter with an optional greedy word
tag and at most one following newline; the replacement is empty. -/
def fenceStep (c : Char) (rest : List Char) : Option (List Char × Nat) :=
  if c = tick then
    match rest with
    | d :: e :: r2 =>
      if d = tick && e = tick then
        some ([], 2 + (r2.takeWhile isWordChar).length +
          (if (r2.drop (r2.takeWhile isWordChar).length).head? = some '\n' then 1 else 0))
      else none
    | _ => none
  else none

/-- The `re.sub` pass of `strip_code_fences`. -/
def subFence (l : List Char) : List Char := scan fenceStep l

/-- Match of a literal `pat` (nonempty in every use): the replacement is
`rep`, consuming `pat.length - 1` characters beyond the current one. -/
def replaceStep (pat rep : List Char) (c : Char) (rest : List Char) : Option (List Char × Nat) :=
  if !pat.isEmpty && pat.isPrefixOf (c :: rest) then some (rep, pat.length - 1)
  else none

/-- `str.replace(pat, rep)`: replace every leftmost, non-overlapping
occurrence of `pat` by `rep`. -/
def replaceAll (pat rep : List Char) (l : List Char) : List Char := scan (replaceStep pat rep) l

/-- The triple-backtick pattern. -/
def tick3 : List Char := [tick, tick, tick]

/-- `strip_code_fences` from the source: the fence pass followed by
`replace` of any remaining bare triple backtick. -/
def strip_code_fences (s : String) : String :=
  if s.isEmpty then "" else
  ⟨replaceAll tick3 [] (subFence s.data)⟩

/-! ## `remove_problem_controls` and `clean_text` -/

/-- Unicode categories Cc / Cf / Cs / Co, modelled over the parts of the
Unicode table this data can contain: all of Cc (U+0000..U+001F, U+007F,
U+0080..U+009F), the common Cf code points (soft hyphen, Arabic letter
mark, zero-widths and bidi controls U+200B..U+200F and U+202A..U+202E,
word joiner block U+2060..U+2064, interlinear annotations and BOM
U+FFF9..U+FFFB, U+FEFF), the surrogate range Cs, and the private-use
ranges Co. -/
def isProblemCat (c : Char) : Bool :=
  decide (c.toNat < 0x20) || c.toNat = 0x7F ||
  (decide (0x80 ≤ c.toNat) && decide (c.toNat ≤ 0x9F)) ||
  c.toNat = 0xAD || c.toNat = 0x61C ||
  (decide (0x200B ≤ c.toNat) && decide (c.toNat ≤ 0x200F)) ||
  (decide (0x202A ≤ c.toNat) && decide (c.toNat ≤ 0x202E)) ||
  (decide (0x2060 ≤ c.toNat) && decide (c.toNat ≤ 0x2064)) ||
  (decide (0xFFF9 ≤ c.toNat) && decide (c.toNat ≤ 0xFFFB)) ||
  c.toNat = 0xFEFF ||
  (decide (0xD800 ≤ c.toNat) && decide (c.toNat ≤ 0xDFFF)) ||
  (decide (0xE000 ≤ c.toNat) && decide (c.toNat ≤ 0xF8FF)) ||
  (decide (0xF0000 ≤ c.toNat) && decide (c.toNat ≤ 0xFFFFD)) ||
  (decide (0x100000 ≤ c.toNat) && decide (c.toNat ≤ 0x10FFFD))

/-- A character `remove_problem_controls` deletes: problem category and
not `\n` or `\t`. -/
def isDropped (c : Char) : Bool := isProblemCat c && !(c = '\n' || c = '\t')

/-- `remove_problem_controls` from the source. -/
def remove_problem_controls (s : String) : String :=
  ⟨s.data.filter (fun c => !isDropped c)⟩

/-- The condition under which `clean_text` strips one outer quote pair:
the string both starts and ends with `"` or both starts and ends with
`'` (a single-character quote string satisfies this and becomes empty). -/
def quoteWrapped (l : List Char) : Bool :=
  (l.head? = some dq && l.getLast? = some dq) ||
  (l.head? = some sq && l.getLast? = some sq)

/-- The five literal `str.replace` unescapes of `clean_text` (doubled
backslash CRLF first, then doubled-backslash n and r, then the escaped
quotes) followed by newline normalization (`\r\n`, then bare `\r`). -/
def unescapePipeline (l : List Char) : List Char :=
  replaceAll ['\r'] ['\n']
    (replaceAll ['\r', '\n'] ['\n']
      (replaceAll [bs, sq] [sq]
        (replaceAll [bs, dq] [dq]
          (replaceAll [bs, bs, 'r'] ['\n']
            (replaceAll [bs, bs, 'n'] ['\n']
              (replaceAll [bs, bs, 'r', bs, bs, 'n'] ['\n'] l))))))

/-- `clean_text` from the source: optional outer-quote strip, the
unescape / newline-normalization pipeline, then control removal. -/
def clean_text (s : String) : String :=
  if s.isEmpty then "" else
  ⟨(unescapePipeline
      (if quoteWrapped s.data then (s.data.drop 1).dropLast else s.data)).filter
    (fun c => !isDropped c)⟩

/-! ## Parsed JSON values

`json.load` produces None / bool / int / float / str / list / dict.
Numbers are modelled as integers (floats only ever reach
`to_epoch_seconds`, where `int()` truncation makes an integral model
faithful for the integral timestamps this data carries); dicts are
association lists in insertion order with the unique keys `json.load`
guarantees. -/

inductive JsonVal where
  | null : JsonVal
  | bool : Bool → JsonVal
  | num : Int → JsonVal
  | str : String → JsonVal
  | arr : List JsonVal → JsonVal
  | obj : List (String × JsonVal) → JsonVal
deriving Repr

/-- `isinstance(x, dict)`. -/
def isDict : JsonVal → Bool
  | .obj _ => true
  | _ => false

/-- Python truthiness of a parsed JSON value. -/
def pyFalsy : JsonVal → Bool
  | .null => true
  | .bool b => !b
  | .num n => n = 0
  | .str s => s.isEmpty
  | .arr xs => xs.isEmpty
  | .obj kvs => kvs.isEmpty

mutual

/-- Python `str()` / `repr()` of a parsed JSON value, as used by
`to_epoch_seconds` on non-numeric, non-string input.  Inner strings are
rendered with single quotes; their own escaping (for strings containing
quotes) is not modelled, which only affects which digits a repr of an
exotic container timestamp contributes to the digit-strip fallback. -/
def pyRepr : JsonVal → String
  | .null => "None"
  | .bool b => if b then "True" else "False"
  | .num n => toString n
  | .str s => String.mk (sq :: s.data) ++ String.mk [sq]
  | .arr xs => "[" ++ pyReprList xs ++ "]"
  | .obj kvs => String.mk [Char.ofNat 123] ++ pyReprObj kvs ++ String.mk [Char.ofNat 125]

def pyReprList : List JsonVal → String
  | [] => ""
  | [x] => pyRepr x
  | x :: y :: rest => pyRepr x ++ ", " ++ pyReprList (y :: rest)

def pyReprObj : List (String × JsonVal) → String
  | [] => ""
  | [(k, v)] => String.mk (sq :: k.data) ++ String.mk [sq] ++ ": " ++ pyRepr v
  | (k, v) :: p :: rest =>
      String.mk (sq :: k.data) ++ String.mk [sq] ++ ": " ++ pyRepr v ++ ", " ++ pyReprObj (p :: rest)

end

/-- Python `str()` of a parsed JSON value: identity on strings, `repr`
otherwise. -/
def pyStr : JsonVal → String
  | .str s => s
  | v => pyRepr v

/-! ## `extract_messages` -/

/-- The fixed key priority of `extract_messages`. -/
def extractKeys : List String := ["data", "messages", "results", "records"]

/-- The `for k in (...)` loop: the first key (in the fixed order) that is
present with a list value. -/
def findListVal (kvs : List (String × JsonVal)) : List String → Option (List JsonVal)
  | [] => none
  | k :: ks =>
    match kvs.lookup k with
    | some (.arr xs) => some xs
    | _ => findListVal kvs ks

/-- The dict-of-dicts sniff of `extract_messages`: if the first value of
the mapping is itself a mapping whose own first value is a mapping,
return the inner values; if the first value is a mapping but the inner
check fails, return the outer values; otherwise nothing.  Only the first
element is ever inspected. -/
def dictSniff (kvs : List (String × JsonVal)) : List JsonVal :=
  match kvs.map Prod.snd with
  | .obj innerKvs :: restVals =>
    match innerKvs.map Prod.snd with
    | fi :: restInner =>
      if isDict fi then fi :: restInner else .obj innerKvs :: restVals
    | [] => .obj innerKvs :: restVals
  | _ => []

/-- `extract_messages` from the source: list input filtered to dicts;
dict input searched for the first of `data`/`messages`/`results`/`records`
holding a list (filtered to dicts); otherwise the dict-of-dicts sniff
(which returns values unfiltered); anything else yields `[]`. -/
def extract_messages (v : JsonVal) : List JsonVal :=
  match v with
  | .arr xs => xs.filter isDict
  | .obj kvs =>
    match findListVal kvs extractKeys with
    | some xs => xs.filter isDict
    | none => dictSniff kvs
  | _ => []

/-! ## `to_epoch_seconds`

The source tries `datetime.fromisoformat` (after rewriting a trailing
`Z` to `+00:00`), falling back to stripping non-digits, and finally to 0.
`datetime.fromisoformat` is standard-library code, modelled here after
the CPython 3.8-3.10 pure-Python implementation: a fixed ten-character
`YYYY-MM-DD` date, an ignored separator character, a time of the exact
shapes `HH`, `HH:MM`, `HH:MM:SS`, `HH:MM:SS.fff`, `HH:MM:SS.ffffff`, and
an optional offset introduced by `+`/`-` of those same shapes restricted
to lengths 5, 8 or 15, with the component ranges enforced by the
`datetime`/`timezone` constructors. -/

def digitVal (c : Char) : Nat := c.toNat - 48

/-- Two decimal digits, as `int(tstr[pos:pos+2])` on a well-formed slice. -/
def twoDigits : List Char → Option (Nat × List Char)
  | a :: b :: rest =>
    if isAsciiDigit a && isAsciiDigit b then some (digitVal a * 10 + digitVal b, rest)
    else none
  | _ => none

def natOfDigits (l : List Char) : Nat := l.foldl (fun a c => a * 10 + digitVal c) 0

def isLeap (y : Nat) : Bool := y % 4 = 0 && (y % 100 ≠ 0 || y % 400 = 0)

def daysInMonth (y m : Nat) : Nat :=
  if m = 2 then (if isLeap y then 29 else 28)
  else if m = 4 || m = 6 || m = 9 || m = 11 then 30
  else 31

/-- Days since 1970-01-01 of a proleptic-Gregorian date (civil-days
algorithm). -/
def daysFromCivil (y m d : Nat) : Int :=
  let y' : Nat := y - (if m ≤ 2 then 1 else 0)
  let era : Nat := y' / 400
  let yoe : Nat := y' - era * 400
  let mp : Nat := (m + 9) % 12
  let doy : Nat := (153 * mp + 2) / 5 + d - 1
  let doe : Nat := yoe * 365 + yoe / 4 - yoe / 100 + doy
  (era * 146097 + doe : Int) - 719468

/-- `_parse_hh_mm_ss_ff`: `HH[:MM[:SS[.fff or .ffffff]]]` with exact
lengths; the fraction is returned in microseconds. -/
def parseHMSF (t : List Char) : Option (Nat × Nat × Nat × Nat) :=
  match twoDigits t with
  | none => none
  | some (h, r1) =>
    match r1 with
    | [] => some (h, 0, 0, 0)
    | ':' :: r2 =>
      match twoDigits r2 with
      | none => none
      | some (m, r3) =>
        match r3 with
        | [] => some (h, m, 0, 0)
        | ':' :: r4 =>
          match twoDigits r4 with
          | none => none
          | some (s, r5) =>
            match r5 with
            | [] => some (h, m, s, 0)
            | '.' :: r6 =>
              if r6.length = 3 && r6.all isAsciiDigit then
                some (h, m, s, natOfDigits r6 * 1000)
              else if r6.length = 6 && r6.all isAsciiDigit then
                some (h, m, s, natOfDigits r6)
              else none
            | _ => none
        | _ => none
    | _ => none

/-- `_parse_isoformat_time`: split at the first `-` (else `+`), parse the
time part and the offset part, and signal the offset in microseconds.
Returns `(h, m, s, us, offset-us or none)`. -/
def parseIsoTime (t : List Char) : Option (Nat × Nat × Nat × Nat × Option Int) :=
  let tzPos : Nat :=
    match t.findIdx? (fun c => c = '-') with
    | some i => i + 1
    | none =>
      match t.findIdx? (fun c => c = '+') with
      | some i => i + 1
      | none => 0
  if tzPos = 0 then
    match parseHMSF t with
    | none => none
    | some (h, m, s, us) => some (h, m, s, us, none)
  else
    let timeStr := t.take (tzPos - 1)
    let tzStr := t.drop tzPos
    if tzStr.length = 5 || tzStr.length = 8 || tzStr.length = 15 then
      match parseHMSF timeStr, parseHMSF tzStr with
      | some (h, m, s, us), some (th, tm, ts, tus) =>
        let sign : Int := if t.get? (tzPos - 1) = some '-' then -1 else 1
        let off : Int := sign * (((th * 3600 + tm * 60 + ts) * 1000000 + tus : Nat) : Int)
        some (h, m, s, us, some off)
      | _, _ => none
    else none

/-- `datetime.fromisoformat` followed by UTC defaulting and
`int(dt.timestamp())`: epoch seconds truncated toward zero, or `none` on
any parse or range failure. -/
def fromIso (l : List Char) : Option Int :=
  match l.take 10 with
  | [y1, y2, y3, y4, c5, m1, m2, c8, d1, d2] =>
    if isAsciiDigit y1 && isAsciiDigit y2 && isAsciiDigit y3 && isAsciiDigit y4 &&
        c5 = '-' && isAsciiDigit m1 && isAsciiDigit m2 && c8 = '-' &&
        isAsciiDigit d1 && isAsciiDigit d2 then
      let y := natOfDigits [y1, y2, y3, y4]
      let m := digitVal m1 * 10 + digitVal m2
      let d := digitVal d1 * 10 + digitVal d2
      let tstr := l.drop 11
      let time? : Option (Nat × Nat × Nat × Nat × Option Int) :=
        if tstr.isEmpty then some (0, 0, 0, 0, none) else parseIsoTime tstr
      match time? with
      | none => none
      | some (h, mi, s, us, off?) =>
        let offUs : Int := off?.getD 0
        if 1 ≤ y && y ≤ 9999 && 1 ≤ m && m ≤ 12 && 1 ≤ d && d ≤ daysInMonth y m &&
            h ≤ 23 && mi ≤ 59 && s ≤ 59 && offUs.natAbs < 86400000000 then
          let totalUs : Int :=
            (daysFromCivil y m d * 86400 + (h * 3600 + mi * 60 + s : Nat)) * 1000000
              + (us : Int) - offUs
          some (Int.tdiv totalUs 1000000)
        else none
    else none
  | _ => none

/-- The digit-strip fallback: `int(re.sub(r"[^\d]", "", s))`, divided by
1000 when above `10^12`; `none` when no digits remain. -/
def digitFallback (l : List Char) : Option Nat :=
  if (l.filter isAsciiDigit).isEmpty then none
  else
    some (if natOfDigits (l.filter isAsciiDigit) > 10 ^ 12 then
            natOfDigits (l.filter isAsciiDigit) / 1000
          else natOfDigits (l.filter isAsciiDigit))

/-- The trailing-`Z` rewrite, which (as in the source) persists into the
digit-strip fallback because the source rebinds `s` before parsing. -/
def zFix (l : List Char) : List Char :=
  if l.getLast? = some 'Z' then l.dropLast ++ "+00:00".data else l

/-- String branch of `to_epoch_seconds` (the string is nonempty here). -/
def epochOfChars (l : List Char) : Int :=
  match fromIso (zFix l) with
  | some t => t
  | none => ((digitFallback (zFix l)).getD 0 : Int)

/-- `to_epoch_seconds` from the source: numbers (booleans included, as
`bool` is an `int` in Python) are truncated and returned; falsy values
give 0; anything else is stringified and parsed as ISO-8601, then by
digit stripping, then defaults to 0. -/
def to_epoch_seconds (v : JsonVal) : Int :=
  match v with
  | .num n => n
  | .bool b => if b then 1 else 0
  | v => if pyFalsy v then 0 else epochOfChars (pyStr v).data

/-! ## `preflight_slack_csv`

The validator reads a CSV record by record; the embedding takes the
parsed record stream (a list of rows, each a list of fields) — the
`csv.reader` file decoding is I/O glue.  `re.fullmatch(r"\d+", _)` is
modelled on ASCII digits, the digits this tool ever writes. -/

/-- The preflight issue counters. -/
structure Issues where
  wrong_cols : Nat
  bad_ts : Nat
  bad_channel : Nat
  bad_username : Nat
  unsorted : Nat
  rows : Nat
deriving Repr, DecidableEq

/-- All counters at zero. -/
def Issues.init : Issues :=
  { wrong_cols := 0, bad_ts := 0, bad_channel := 0, bad_username := 0, unsorted := 0, rows := 0 }

/-- `re.fullmatch(r"\d+", ts or "")`. -/
def isAllDigits (s : String) : Bool := !s.data.isEmpty && s.data.all isAsciiDigit

/-- One iteration of the preflight loop: bump `rows`; a non-4-column row
only bumps `wrong_cols`; otherwise check the timestamp (with the
`unsorted` comparison against, and unconditional update of, the last
numeric value) and the channel/username patterns. -/
def preflightStep (st : Issues × Int) (row : List String) : Issues × Int :=
  let is0 := st.1
  let last := st.2
  let is1 := { is0 with rows := is0.rows + 1 }
  match row with
  | [ts, ch, user, _] =>
    let (is2, last2) :=
      if isAllDigits ts then
        let it : Int := (natOfDigits ts.data : Int)
        (if it < last then { is1 with unsorted := is1.unsorted + 1 } else is1, it)
      else ({ is1 with bad_ts := is1.bad_ts + 1 }, last)
    let is3 := if matchesChanRe ch then is2 else { is2 with bad_channel := is2.bad_channel + 1 }
    let is4 := if matchesUserRe user then is3 else { is3 with bad_username := is3.bad_username + 1 }
    (is4, last2)
  | _ => ({ is1 with wrong_cols := is1.wrong_cols + 1 }, last)

/-- `preflight_slack_csv` from the source, over the parsed record stream;
the sentinel is `-10^18`. -/
def preflight_slack_csv (rows : List (List String)) : Issues :=
  (rows.foldl preflightStep (Issues.init, -(10 ^ 18 : Int))).1

/-- The numeric timestamps of the well-formed rows, in order: the values
the `unsorted` check actually compares. -/
def validTsList (rows : List (List String)) : List Nat :=
  rows.filterMap (fun row =>
    match row with
    | [ts, _, _, _] => if isAllDigits ts then some (natOfDigits ts.data) else none
    | _ => none)

/-- Adjacent descents of a list: the number of positions whose value is
strictly below its immediate predecessor. -/
def numDescents : List Nat → Nat
  | x :: y :: rest => (if y < x then 1 else 0) + numDescents (y :: rest)
  | _ => 0

/-! ## Helper lemmas -/

theorem mem_of_mem_pyStrip {c : Char} {l : List Char} (h : c ∈ pyStrip l) : c ∈ l := by
  unfold pyStrip at h
  rw [List.mem_reverse] at h
  have h1 := (List.dropWhile_sublist _).subset h
  rw [List.mem_reverse] at h1
  exact (List.dropWhile_sublist _).subset h1

theorem chanNorm_isChanChar (c : Char) : isChanChar (chanNorm c) = true := by
  unfold chanNorm
  split_ifs with h1 h2
  · rfl
  · exact h2
  · rfl

theorem mem_collapseHyphens : ∀ (l : List Char), ∀ c ∈ collapseHyphens l, c ∈ l := by
  intro l
  induction l using collapseHyphens.induct with
  | case1 => intro c hc; simpa [collapseHyphens] using hc
  | case2 c => intro c' hc'; simpa [collapseHyphens] using hc'
  | case3 c d rest2 hcd ih =>
    intro c' hc'
    rw [collapseHyphens] at hc'
    simp only [hcd, if_true] at hc'
    simp only [Bool.and_eq_true, decide_eq_true_eq] at hcd
    obtain ⟨rfl, rfl⟩ := hcd
    rcases List.mem_cons.mp (ih c' hc') with rfl | h2
    · exact List.mem_cons_self _ _
    · exact List.mem_cons_of_mem _ (List.mem_cons_of_mem _ h2)
  | case4 c d rest2 hcd ih =>
    intro c' hc'
    rw [collapseHyphens] at hc'
    simp only [hcd, Bool.false_eq_true, if_false] at hc'
    rcases List.mem_cons.mp hc' with rfl | h2
    · exact List.mem_cons_self _ _
    · exact List.mem_cons_of_mem _ (ih c' h2)

theorem mem_of_mem_stripHyphens {c : Char} {l : List Char} (h : c ∈ stripHyphens l) : c ∈ l := by
  unfold stripHyphens at h
  rw [List.mem_reverse] at h
  have h1 := (List.dropWhile_sublist _).subset h
  rw [List.mem_reverse] at h1
  exact (List.dropWhile_sublist _).subset h1

theorem stripHyphens_all_hyphens {l : List Char} (h : ∀ c ∈ l, c = '-') :
    stripHyphens l = [] := by
  unfold stripHyphens
  have h1 : l.dropWhile (fun c => c = '-') = [] :=
    List.dropWhile_eq_nil_iff.mpr (by intro x hx; simp [h x hx])
  rw [h1]
  rfl

/-! ## Claim C7: `sanitize_channel` output invariant -/

/-- **C7**: for every input string, `sanitize_channel` returns a string
matching `^[a-z0-9_-]{1,80}$`; inputs all of whose characters normalize
to a hyphen (in particular the empty string and strings of characters
disallowed in the slug alphabet) yield exactly `"general"`. -/
theorem chanCore_all (s : String) : ∀ c ∈ chanCore s, isChanChar c = true := by
  intro c hc
  unfold chanCore at hc
  have hc1 := List.mem_of_mem_take hc
  have hc2 := mem_of_mem_stripHyphens hc1
  have hc3 := mem_collapseHyphens _ c hc2
  rcases List.mem_map.mp hc3 with ⟨a, _, rfl⟩
  exact chanNorm_isChanChar a

theorem sanitize_channel_valid_slug (s : String) :
    matchesChanRe (sanitize_channel s) = true ∧
      ((∀ c ∈ s.data, chanNorm (Char.toLower c) = '-') → sanitize_channel s = "general") := by
  constructor
  · unfold sanitize_channel
    by_cases he : (chanCore s).isEmpty
    · rw [if_pos he]
      decide
    · rw [if_neg he]
      unfold matchesChanRe
      simp only [Bool.and_eq_true, decide_eq_true_eq, Bool.not_eq_true']
      refine ⟨⟨by simpa using he, ?_⟩, ?_⟩
      · unfold chanCore
        simpa using List.length_take_le 80 _
      · rw [List.all_eq_true]
        intro c hc
        exact chanCore_all s c hc
  · intro h
    have hall : ∀ c ∈ collapseHyphens ((pyStrip (s.data.map Char.toLower)).map chanNorm),
        c = '-' := by
      intro c hc
      have hc1 := mem_collapseHyphens _ c hc
      rcases List.mem_map.mp hc1 with ⟨a, ha, rfl⟩
      have ha2 := mem_of_mem_pyStrip ha
      rcases List.mem_map.mp ha2 with ⟨b, hb, rfl⟩
      exact h b hb
    have hcore : chanCore s = [] := by
      unfold chanCore
      rw [stripHyphens_all_hyphens hall]
      rfl
    unfold sanitize_channel
    rw [hcore]
    rfl

/-- Witness for C7 at a concrete all-disallowed input. -/
theorem sanitize_channel_valid_slug_witness :
    matchesChanRe (sanitize_channel "@@@") = true ∧ sanitize_channel "@@@" = "general" :=
  ⟨(sanitize_channel_valid_slug "@@@").1,
   (sanitize_channel_valid_slug "@@@").2 (by decide)⟩

/-! ## Claim C2: `sanitize_username` output invariant -/

theorem userCore_keep (u : String) : ∀ c ∈ userCore u, isUserKeep c = true := by
  intro c hc
  unfold userCore at hc
  rcases List.mem_map.mp hc with ⟨a, _, rfl⟩
  by_cases h : isUserKeep a
  · simpa [h] using h
  · simp only [h, Bool.false_eq_true, if_false]
    decide

theorem mem_userChain {c : Char} {u : String}
    (hc : c ∈ (((pyStrip u.data).dropWhile (fun c => !isWordChar c)).reverse.dropWhile
      (fun c => !isUserKeep c)).reverse) : c ∈ u.data := by
  rw [List.mem_reverse] at hc
  have h1 := (List.dropWhile_sublist _).subset hc
  rw [List.mem_reverse] at h1
  have h2 := (List.dropWhile_sublist _).subset h1
  exact mem_of_mem_pyStrip h2

theorem userCore_ascii {u : String} (h : ∀ c ∈ u.data, c.toNat < 128) :
    ∀ c ∈ userCore u, isUserChar c = true := by
  intro c hc
  unfold userCore at hc
  rcases List.mem_map.mp hc with ⟨a, ha, rfl⟩
  have haa : a.toNat < 128 := h a (mem_userChain ha)
  by_cases hk : isUserKeep a = true
  · rw [if_pos hk]
    simp only [isUserKeep, Bool.or_eq_true, decide_eq_true_eq] at hk
    rcases hk with (hw | h1) | h2
    · simp only [isWordChar, Bool.or_eq_true, Bool.and_eq_true, decide_eq_true_eq] at hw
      rcases hw with (ha1 | ha2) | ha3
      · simp [isUserChar, ha1]
      · simp [isUserChar, ha2]
      · omega
    · simp [isUserChar, h1]
    · simp [isUserChar, h2]
  · rw [if_neg hk]
    decide

/-- **C2** is `corrected`: `sanitize_username` is not confined to
`^[A-Za-z0-9._-]{1,80}$` on arbitrary Unicode input, because Python's
`\w` is Unicode-aware; the accented letter survives untouched. -/
theorem sanitize_username_unicode_counterexample :
    sanitize_username "aé" = "aé" ∧ matchesUserRe (sanitize_username "aé") = false := by
  constructor <;> decide

/-- **C2** (amended): for all-ASCII input the result does match
`^[A-Za-z0-9._-]{1,80}$`; input with no (Unicode) word character at all
— in particular the empty string and pure-punctuation strings — yields
exactly `"user_import"`; and for arbitrary input the result always has
1 to 80 characters, each a word character, period or hyphen, the first
of which is ASCII alphanumeric. -/
theorem sanitize_username_amended (u : String) :
    ((∀ c ∈ u.data, c.toNat < 128) → matchesUserRe (sanitize_username u) = true) ∧
    ((∀ c ∈ u.data, isWordChar c = false) → sanitize_username u = "user_import") ∧
    ((sanitize_username u).data ≠ [] ∧ (sanitize_username u).data.length ≤ 80 ∧
      (∀ c ∈ (sanitize_username u).data, isUserKeep c = true) ∧
      (∀ c, (sanitize_username u).data.head? = some c → isAsciiAlnum c = true)) := by
  refine ⟨?_, ?_, ?_⟩
  · intro h
    unfold matchesUserRe
    simp only [Bool.and_eq_true, decide_eq_true_eq, Bool.not_eq_true']
    unfold sanitize_username
    rcases hcore : userCore u with _ | ⟨c, rest⟩
    · simp only []
      refine ⟨⟨by decide, by decide⟩, by decide⟩
    · by_cases hal : isAsciiAlnum c = true
      · simp only [hal, if_true]
        refine ⟨⟨?_, ?_⟩, ?_⟩
        · simp
        · simpa using List.length_take_le 80 _
        · rw [List.all_eq_true]
          intro x hx
          have hx1 := List.mem_of_mem_take hx
          have hx2 : x ∈ userCore u := by rw [hcore]; exact hx1
          exact userCore_ascii h x hx2
      · simp only [hal, Bool.false_eq_true, if_false]
        refine ⟨⟨by decide, by decide⟩, by decide⟩
  · intro h
    have hstrip : ∀ c ∈ pyStrip u.data, isWordChar c = false := by
      intro c hc
      exact h c (mem_of_mem_pyStrip hc)
    have hdrop : (pyStrip u.data).dropWhile (fun c => !isWordChar c) = [] := by
      rw [List.dropWhile_eq_nil_iff]
      intro x hx
      simp [hstrip x hx]
    have hcore : userCore u = [] := by
      unfold userCore
      rw [hdrop]
      rfl
    unfold sanitize_username
    rw [hcore]
    decide
  · unfold sanitize_username
    rcases hcore : userCore u with _ | ⟨c, rest⟩
    · refine ⟨by decide, by decide, by decide, by decide⟩
    · by_cases hal : isAsciiAlnum c = true
      · simp only [hal, if_true]
        refine ⟨by simp, by simpa using List.length_take_le 80 _, ?_, ?_⟩
        · intro x hx
          have hx1 := List.mem_of_mem_take hx
          have hx2 : x ∈ userCore u := by rw [hcore]; exact hx1
          exact userCore_keep u x hx2
        · intro x hx
          simp only [List.take_cons_succ, List.head?_cons, Option.some.injEq] at hx
          subst hx
          exact hal
      · simp only [hal, Bool.false_eq_true, if_false]
        refine ⟨by decide, by decide, by decide, by decide⟩

/-- Witness for C2 (amended) at an all-ASCII input and at a
pure-punctuation input. -/
theorem sanitize_username_amended_witness :
    matchesUserRe (sanitize_username "Bo#1") = true ∧
      sanitize_username "!!!" = "user_import" :=
  ⟨(sanitize_username_amended "Bo#1").1 (by decide),
   (sanitize_username_amended "!!!").2.1 (by decide)⟩

/-! ## Claims C1 and C8: `to_epoch_seconds` -/

/-- **C1** is `corrected`: `to_epoch_seconds` does not always return a
non-negative value — a negative numeric input is truncated and returned
as-is. -/
theorem to_epoch_seconds_negative_counterexample :
    to_epoch_seconds (.num (-5)) = -5 ∧ to_epoch_seconds (.num (-5)) < 0 := by
  constructor <;> decide

/-- **C1** (amended): `to_epoch_seconds` is total (never raises) and
returns an integer, but not always a non-negative one: numeric input is
returned unchanged after integer truncation, so negative numbers (and,
through the ISO branch, pre-1970 instants) map to negative values; on
every string whose ISO-8601 parse fails — hence on the digit-strip
fallback and the final default — the result is non-negative; and absent
input yields 0. -/
theorem to_epoch_seconds_amended :
    (∀ n : Int, to_epoch_seconds (.num n) = n) ∧
    (∀ s : String, fromIso (zFix s.data) = none → 0 ≤ to_epoch_seconds (.str s)) ∧
    to_epoch_seconds .null = 0 := by
  refine ⟨fun n => rfl, ?_, rfl⟩
  intro s hiso
  have hto : to_epoch_seconds (.str s) =
      if pyFalsy (.str s) = true then 0 else epochOfChars (pyStr (.str s)).data := rfl
  rw [hto]
  by_cases hf : pyFalsy (.str s) = true
  · rw [if_pos hf]
  · rw [if_neg hf]
    show 0 ≤ epochOfChars (pyStr (.str s)).data
    unfold epochOfChars
    have hps : (pyStr (.str s)).data = s.data := rfl
    rw [hps, hiso]
    exact Int.natCast_nonneg _

/-- Witness for C1 (amended) on a string the ISO parser rejects. -/
theorem to_epoch_seconds_amended_witness :
    to_epoch_seconds (.num 7) = 7 ∧ 0 ≤ to_epoch_seconds (.str "hello") :=
  ⟨to_epoch_seconds_amended.1 7, to_epoch_seconds_amended.2.1 "hello" (by decide)⟩

/-- **C8**: when both the ISO-8601 parse (of the string after the
trailing-`Z` rewrite, exactly as the source leaves it) and the
digit-strip fallback fail, `to_epoch_seconds` returns exactly 0; the
function is total, so no exception escapes. -/
theorem to_epoch_seconds_unparseable_zero (s : String)
    (hiso : fromIso (zFix s.data) = none)
    (hdig : (zFix s.data).filter isAsciiDigit = []) :
    to_epoch_seconds (.str s) = 0 := by
  have hto : to_epoch_seconds (.str s) =
      if pyFalsy (.str s) = true then 0 else epochOfChars (pyStr (.str s)).data := rfl
  rw [hto]
  by_cases hf : pyFalsy (.str s) = true
  · rw [if_pos hf]
  · rw [if_neg hf]
    show epochOfChars (pyStr (.str s)).data = 0
    unfold epochOfChars
    have hps : (pyStr (.str s)).data = s.data := rfl
    rw [hps, hiso]
    show ((digitFallback (zFix s.data)).getD 0 : Int) = 0
    unfold digitFallback
    rw [hdig]
    rfl

/-- Witness for C8 at a digit-free, ISO-unparseable string. -/
theorem to_epoch_seconds_unparseable_zero_witness :
    to_epoch_seconds (.str "abc") = 0 :=
  to_epoch_seconds_unparseable_zero "abc" (by decide) (by decide)

/-! ## Claim C9: no word boundary before `@` -/

theorem mk_isEmpty_false {l : List Char} (h : l ≠ []) : (String.mk l).isEmpty = false := by
  rw [Bool.eq_false_iff]
  intro hc
  rw [String.isEmpty_iff] at hc
  exact h (congrArg String.data hc)

theorem wordTokStep_none_of_ne_at {tok : List Char} {c : Char} (h : c ≠ '@')
    (r : List Char) : wordTokStep tok c r = none := by
  unfold wordTokStep
  simp [h]

theorem mentionStep_none_of_ne_at {c : Char} (h : c ≠ '@') (r : List Char) :
    mentionStep c r = none := by
  unfold mentionStep
  simp [h]

/-- **C9**: `strip_mentions` requires no word boundary before the `@`:
for any `@`-free prefix `p` (in particular one ending in a letter, as in
`a@b.com`), the `@` of `@b.com` is still dropped. -/
theorem strip_mentions_no_boundary_before_at (p : List Char) (hp : '@' ∉ p) :
    strip_mentions ⟨p ++ "@b.com".data⟩ = ⟨p ++ "b.com".data⟩ := by
  have hne : (String.mk (p ++ "@b.com".data)).isEmpty = false :=
    mk_isEmpty_false (by simp)
  unfold strip_mentions
  rw [hne]
  simp only [Bool.false_eq_true, if_false]
  have hp2 : ∀ c ∈ p, c ≠ '@' := fun c hc he => hp (he ▸ hc)
  have h1 : subWordTok "everyone".data (p ++ "@b.com".data) =
      p ++ subWordTok "everyone".data "@b.com".data :=
    scan_append_none _ p _ (fun c hc r => wordTokStep_none_of_ne_at (hp2 c hc) r)
  have h1v : subWordTok "everyone".data "@b.com".data = "@b.com".data := by decide
  have h2 : subWordTok "here".data (p ++ "@b.com".data) =
      p ++ subWordTok "here".data "@b.com".data :=
    scan_append_none _ p _ (fun c hc r => wordTokStep_none_of_ne_at (hp2 c hc) r)
  have h2v : subWordTok "here".data "@b.com".data = "@b.com".data := by decide
  have h3 : subMention (p ++ "@b.com".data) = p ++ subMention "@b.com".data :=
    scan_append_none _ p _ (fun c hc r => mentionStep_none_of_ne_at (hp2 c hc) r)
  have h3v : subMention "@b.com".data = "b.com".data := by decide
  show String.mk (subMention (subWordTok "here".data
    (subWordTok "everyone".data (p ++ "@b.com".data)))) = _
  rw [h1, h1v, h2, h2v, h3, h3v]

/-- Witness for C9 at the email-like input of the claim. -/
theorem strip_mentions_no_boundary_before_at_witness :
    strip_mentions "a@b.com" = "ab.com" :=
  strip_mentions_no_boundary_before_at ['a'] (by decide)

/-! ## Claims C4 and C10: `extract_messages` -/

theorem filter_isDict_all (xs : List JsonVal) : (xs.filter isDict).all isDict = true := by
  induction xs with
  | nil => rfl
  | cons x xs ih =>
    by_cases h : isDict x = true <;> simp [List.filter_cons, h, ih]

theorem extract_obj_eq (kvs : List (String × JsonVal)) :
    extract_messages (.obj kvs) =
      (match findListVal kvs extractKeys with
       | some xs => xs.filter isDict
       | none => dictSniff kvs) := rfl

theorem findListVal_cons_hit {kvs : List (String × JsonVal)} {k : String}
    {ks : List String} {xs : List JsonVal} (h : kvs.lookup k = some (.arr xs)) :
    findListVal kvs (k :: ks) = some xs := by
  unfold findListVal
  rw [h]

theorem findListVal_cons_skip {kvs : List (String × JsonVal)} {k : String}
    {ks : List String} (h : ∀ xs, kvs.lookup k ≠ some (.arr xs)) :
    findListVal kvs (k :: ks) = findListVal kvs ks := by
  cases hv : kvs.lookup k with
  | none =>
    conv =>
      lhs
      rw [findListVal, hv]
  | some v =>
    cases v with
    | arr xs => exact absurd hv (h xs)
    | null =>
      conv =>
        lhs
        rw [findListVal, hv]
    | bool b =>
      conv =>
        lhs
        rw [findListVal, hv]
    | num n =>
      conv =>
        lhs
        rw [findListVal, hv]
    | str s =>
      conv =>
        lhs
        rw [findListVal, hv]
    | obj o =>
      conv =>
        lhs
        rw [findListVal, hv]

/-- **C4** is `corrected`: the dict-of-dicts path of `extract_messages`
checks only the first value, so later non-mapping values leak through —
here the outer values `[{}, 5]` are returned although `5` is no dict. -/
theorem extract_messages_nondict_counterexample :
    extract_messages (.obj [("a", .obj []), ("b", .num 5)]) = [.obj [], .num 5] ∧
      (extract_messages (.obj [("a", .obj []), ("b", .num 5)])).all isDict = false :=
  ⟨rfl, rfl⟩

/-- **C4** (amended): `extract_messages` is total (never raises); the
sequence path and the keyed-list path return mappings only, and every
scalar shape yields `[]`; but the dict-of-dicts path inspects only the
first (outer and inner) value and may return non-mapping elements. -/
theorem extract_messages_amended :
    (∀ xs : List JsonVal, (extract_messages (.arr xs)).all isDict = true) ∧
    (∀ (kvs : List (String × JsonVal)) (xs : List JsonVal),
        findListVal kvs extractKeys = some xs →
        (extract_messages (.obj kvs)).all isDict = true) ∧
    extract_messages .null = [] ∧
    (∀ b, extract_messages (.bool b) = []) ∧
    (∀ n, extract_messages (.num n) = []) ∧
    (∀ s, extract_messages (.str s) = []) := by
  refine ⟨?_, ?_, rfl, fun b => rfl, fun n => rfl, fun s => rfl⟩
  · intro xs
    exact filter_isDict_all xs
  · intro kvs xs h
    rw [extract_obj_eq, h]
    exact filter_isDict_all xs

/-- Witness for C4 (amended) at a concrete keyed mapping. -/
theorem extract_messages_amended_witness :
    (extract_messages (.obj [("messages", .arr [.obj [], .num 7])])).all isDict = true :=
  extract_messages_amended.2.1 [("messages", .arr [.obj [], .num 7])] [.obj [], .num 7] rfl

/-- **C10**: when several of the keys `data`, `messages`, `results`,
`records` hold sequences, the earliest in that fixed order wins and the
others are ignored. -/
theorem extract_messages_key_priority :
    (∀ (kvs : List (String × JsonVal)) (xs : List JsonVal),
        kvs.lookup "data" = some (.arr xs) →
        extract_messages (.obj kvs) = xs.filter isDict) ∧
    (∀ (kvs : List (String × JsonVal)) (ys : List JsonVal),
        (∀ xs, kvs.lookup "data" ≠ some (.arr xs)) →
        kvs.lookup "messages" = some (.arr ys) →
        extract_messages (.obj kvs) = ys.filter isDict) ∧
    (∀ (kvs : List (String × JsonVal)) (zs : List JsonVal),
        (∀ xs, kvs.lookup "data" ≠ some (.arr xs)) →
        (∀ xs, kvs.lookup "messages" ≠ some (.arr xs)) →
        kvs.lookup "results" = some (.arr zs) →
        extract_messages (.obj kvs) = zs.filter isDict) ∧
    (∀ (kvs : List (String × JsonVal)) (ws : List JsonVal),
        (∀ xs, kvs.lookup "data" ≠ some (.arr xs)) →
        (∀ xs, kvs.lookup "messages" ≠ some (.arr xs)) →
        (∀ xs, kvs.lookup "results" ≠ some (.arr xs)) →
        kvs.lookup "records" = some (.arr ws) →
        extract_messages (.obj kvs) = ws.filter isDict) := by
  have hkeys : extractKeys = "data" :: "messages" :: "results" :: "records" :: [] := rfl
  refine ⟨?_, ?_, ?_, ?_⟩
  · intro kvs xs h
    rw [extract_obj_eq, hkeys, findListVal_cons_hit h]
  · intro kvs ys h1 h2
    rw [extract_obj_eq, hkeys, findListVal_cons_skip h1, findListVal_cons_hit h2]
  · intro kvs zs h1 h2 h3
    rw [extract_obj_eq, hkeys, findListVal_cons_skip h1, findListVal_cons_skip h2,
      findListVal_cons_hit h3]
  · intro kvs ws h1 h2 h3 h4
    rw [extract_obj_eq, hkeys, findListVal_cons_skip h1, findListVal_cons_skip h2,
      findListVal_cons_skip h3, findListVal_cons_hit h4]

/-- Witness for C10: `data` beats `messages` even listed second, and
`messages` is used when `data` holds no sequence. -/
theorem extract_messages_key_priority_witness :
    extract_messages (.obj [("messages", .arr [.obj []]), ("data", .arr [.num 1])]) = [] ∧
    extract_messages (.obj [("data", .str "x"), ("messages", .arr [.obj [("u", .null)]])]) =
      [.obj [("u", .null)]] := by
  constructor
  · have h := extract_messages_key_priority.1
      [("messages", .arr [.obj []]), ("data", .arr [.num 1])] [.num 1] rfl
    rw [h]
    rfl
  · have h := extract_messages_key_priority.2.1
      [("data", .str "x"), ("messages", .arr [.obj [("u", .null)]])]
      [.obj [("u", .null)]] (fun xs hx => by
        have h2 : some (JsonVal.str "x") = some (JsonVal.arr xs) := hx
        simp at h2) rfl
    rw [h]
    rfl

/-! ## Claim C6: the preflight `unsorted` counter -/

/-- Running-descent count relative to a previous value. -/
def descFrom (last : Int) : List Nat → Nat
  | [] => 0
  | x :: xs => (if (x : Int) < last then 1 else 0) + descFrom (x : Int) xs

theorem step_unsorted (is : Issues) (last : Int) (row : List String) :
    (preflightStep (is, last) row).1.unsorted =
      is.unsorted + (match row with
        | [ts, _, _, _] =>
          if isAllDigits ts = true ∧ ((natOfDigits ts.data : Int) < last) then 1 else 0
        | _ => 0) := by
  match row with
  | [] => rfl
  | [a] => rfl
  | [a, b] => rfl
  | [a, b, c] => rfl
  | a :: b :: c :: d :: e :: t => rfl
  | [ts, ch, user, x] =>
    simp only [preflightStep]
    by_cases hd : isAllDigits ts = true
    · simp only [hd, if_true, true_and]
      by_cases hlt : (natOfDigits ts.data : Int) < last
      · simp only [hlt, if_true]
        split_ifs <;> rfl
      · simp only [hlt, if_false]
        split_ifs <;> rfl
    · simp only [hd, Bool.false_eq_true, if_false, false_and]
      split_ifs <;> rfl

theorem step_last (is : Issues) (last : Int) (row : List String) :
    (preflightStep (is, last) row).2 =
      (match row with
        | [ts, _, _, _] => if isAllDigits ts = true then (natOfDigits ts.data : Int) else last
        | _ => last) := by
  match row with
  | [] => rfl
  | [a] => rfl
  | [a, b] => rfl
  | [a, b, c] => rfl
  | a :: b :: c :: d :: e :: t => rfl
  | [ts, ch, user, x] =>
    simp only [preflightStep]
    by_cases hd : isAllDigits ts = true
    · simp only [hd, if_true]
    · simp only [hd, Bool.false_eq_true, if_false]

theorem preflight_unsorted_aux :
    ∀ (rows : List (List String)) (is : Issues) (last : Int),
      ((rows.foldl preflightStep (is, last)).1).unsorted =
        is.unsorted + descFrom last (validTsList rows) := by
  intro rows
  induction rows with
  | nil =>
    intro is last
    simp [validTsList, descFrom]
  | cons row rows ih =>
    intro is last
    rw [List.foldl_cons]
    have hpair : rows.foldl preflightStep (preflightStep (is, last) row) =
        rows.foldl preflightStep
          ((preflightStep (is, last) row).1, (preflightStep (is, last) row).2) := rfl
    rw [hpair, ih, step_unsorted, step_last]
    match row with
    | [] => simp [validTsList, List.filterMap_cons, descFrom]
    | [a] => simp [validTsList, List.filterMap_cons, descFrom]
    | [a, b] => simp [validTsList, List.filterMap_cons, descFrom]
    | [a, b, c] => simp [validTsList, List.filterMap_cons, descFrom]
    | a :: b :: c :: d :: e :: t => simp [validTsList, List.filterMap_cons, descFrom]
    | [ts, ch, user, x] =>
      by_cases hd : isAllDigits ts = true
      · have hv : validTsList ([ts, ch, user, x] :: rows) =
            natOfDigits ts.data :: validTsList rows := by
          simp [validTsList, List.filterMap_cons, hd]
        rw [hv]
        simp only [hd, true_and, if_true, descFrom]
        rw [Nat.add_assoc]
      · have hv : validTsList ([ts, ch, user, x] :: rows) = validTsList rows := by
          simp [validTsList, List.filterMap_cons, hd]
        rw [hv]
        simp [hd]

theorem descFrom_cons_eq (x : Nat) (xs : List Nat) :
    descFrom (x : Int) xs = numDescents (x :: xs) := by
  induction xs generalizing x with
  | nil => rfl
  | cons y ys ih =>
    show (if (y : Int) < (x : Int) then 1 else 0) + descFrom (y : Int) ys =
      (if y < x then 1 else 0) + numDescents (y :: ys)
    rw [ih y]
    congr 1
    simp [Nat.cast_lt]

theorem descFrom_sentinel (xs : List Nat) :
    descFrom (-(10 ^ 18 : Int)) xs = numDescents xs := by
  cases xs with
  | nil => rfl
  | cons x ys =>
    show (if (x : Int) < -(10 ^ 18 : Int) then 1 else 0) + descFrom (x : Int) ys =
      numDescents (x :: ys)
    rw [descFrom_cons_eq]
    have hx : ¬((x : Int) < -(10 ^ 18 : Int)) := by
      have h := Int.natCast_nonneg x
      omega
    rw [if_neg hx, Nat.zero_add]

/-- **C6**: `unsorted` counts exactly the rows whose valid numeric
timestamp is strictly below the immediately preceding valid numeric
timestamp (the comparison value being updated on every valid row,
initialized to the `-10^18` sentinel that no all-digits value can
undercut); consequently a single out-of-order row in an otherwise
increasing file is counted exactly once. -/
theorem preflight_unsorted_counts_descents :
    (∀ rows : List (List String),
        (preflight_slack_csv rows).unsorted = numDescents (validTsList rows)) ∧
    (preflight_slack_csv
        [["5","c","u",""],["3","c","u",""],["4","c","u",""],["6","c","u",""]]).unsorted = 1 := by
  constructor
  · intro rows
    unfold preflight_slack_csv
    rw [preflight_unsorted_aux rows Issues.init (-(10 ^ 18 : Int)), descFrom_sentinel]
    rw [show Issues.init.unsorted = 0 from rfl, Nat.zero_add]
  · decide

/-! ## Claim C5: which escape sequences `clean_text` unescapes -/

theorem replaceStep_none_of_ne_head {ph : Char} {pt rep : List Char} {c : Char}
    (h : c ≠ ph) (rest : List Char) : replaceStep (ph :: pt) rep c rest = none := by
  unfold replaceStep
  rw [if_neg]
  intro hcond
  simp only [Bool.and_eq_true] at hcond
  have h2 := hcond.2
  simp only [List.isPrefixOf, Bool.and_eq_true, beq_iff_eq] at h2
  exact h h2.1.symm

theorem replaceAll_id_of_head_not_mem {ph : Char} (pt rep : List Char) {l : List Char}
    (h : ph ∉ l) : replaceAll (ph :: pt) rep l = l :=
  scan_id_none _ l (fun c hc r =>
    replaceStep_none_of_ne_head (fun he => h (by rw [← he]; exact hc)) r)

theorem replaceAll_append_of_head_not_mem {ph : Char} (pt rep : List Char) {p : List Char}
    (h : ph ∉ p) (t : List Char) :
    replaceAll (ph :: pt) rep (p ++ t) = p ++ replaceAll (ph :: pt) rep t :=
  scan_append_none _ p t (fun c hc r =>
    replaceStep_none_of_ne_head (fun he => h (by rw [← he]; exact hc)) r)

theorem scan_cons_replace (pat rep : List Char) (c : Char) (rest : List Char) :
    replaceAll pat rep (c :: rest) =
      match replaceStep pat rep c rest with
      | some (out, k) => out ++ replaceAll pat rep (rest.drop k)
      | none => c :: replaceAll pat rep rest :=
  scan_cons _ c rest

theorem unescape_bbn (p q : List Char) (hpb : bs ∉ p) (hqb : bs ∉ q)
    (hpr : '\r' ∉ p) (hqr : '\r' ∉ q) :
    unescapePipeline (p ++ bs :: bs :: 'n' :: q) = p ++ '\n' :: q := by
  have hq1 : ∀ c ∈ 'n' :: q, c ≠ bs := by
    intro c hc
    rcases List.mem_cons.mp hc with rfl | hc2
    · decide
    · exact fun he => hqb (he ▸ hc2)
  have h1 : replaceAll [bs, bs, 'r', bs, bs, 'n'] ['\n'] (p ++ bs :: bs :: 'n' :: q)
      = p ++ bs :: bs :: 'n' :: q := by
    rw [replaceAll_append_of_head_not_mem _ _ hpb]
    rw [scan_cons_replace, show replaceStep [bs, bs, 'r', bs, bs, 'n'] ['\n'] bs
      (bs :: 'n' :: q) = none from by simp [replaceStep, List.isPrefixOf, bs]]
    rw [scan_cons_replace, show replaceStep [bs, bs, 'r', bs, bs, 'n'] ['\n'] bs
      ('n' :: q) = none from by simp [replaceStep, List.isPrefixOf, bs]]
    rw [replaceAll_id_of_head_not_mem _ _ (fun hmem => (hq1 bs hmem) rfl)]
  have h2 : replaceAll [bs, bs, 'n'] ['\n'] (p ++ bs :: bs :: 'n' :: q)
      = p ++ '\n' :: q := by
    rw [replaceAll_append_of_head_not_mem _ _ hpb]
    rw [scan_cons_replace, show replaceStep [bs, bs, 'n'] ['\n'] bs (bs :: 'n' :: q) =
      some (['\n'], 2) from by simp [replaceStep, List.isPrefixOf, bs]]
    show p ++ '\n' :: replaceAll [bs, bs, 'n'] ['\n'] q = p ++ '\n' :: q
    rw [replaceAll_id_of_head_not_mem _ _ hqb]
  have hnb : bs ∉ p ++ '\n' :: q := by
    intro hmem
    rcases List.mem_append.mp hmem with hm | hm
    · exact hpb hm
    · rcases List.mem_cons.mp hm with he | hm2
      · exact absurd he (by decide)
      · exact hqb hm2
  have hnr : '\r' ∉ p ++ '\n' :: q := by
    intro hmem
    rcases List.mem_append.mp hmem with hm | hm
    · exact hpr hm
    · rcases List.mem_cons.mp hm with he | hm2
      · exact absurd he (by decide)
      · exact hqr hm2
  unfold unescapePipeline
  rw [h1, h2,
    replaceAll_id_of_head_not_mem _ _ hnb,
    replaceAll_id_of_head_not_mem _ _ hnb,
    replaceAll_id_of_head_not_mem _ _ hnb,
    replaceAll_id_of_head_not_mem _ _ hnr,
    replaceAll_id_of_head_not_mem _ _ hnr]

/-- **C5** is `corrected`: the two-character sequence backslash-`n` is
NOT replaced by a newline — `clean_text` leaves it untouched (the source
uses raw-string patterns containing doubled backslashes). -/
theorem clean_text_single_backslash_counterexample :
    clean_text "a\\nb" = "a\\nb" ∧ "a\\nb" ≠ "a\nb" := by
  constructor <;> decide

/-- **C5** (amended): after outer-quote stripping, `clean_text` replaces
the doubled-backslash sequences — backslash backslash `n` (shown here in
a backslash- and CR-free context), backslash backslash `r`, with the
six-character backslash backslash `r` backslash backslash `n` handled
first — by a newline, and unescapes backslash-quote to the bare quote;
the single two-character backslash-`n` / backslash-`r` sequences are
left unchanged. -/
theorem clean_text_doubled_backslash_only :
    (∀ p q : List Char, bs ∉ p → bs ∉ q → '\r' ∉ p → '\r' ∉ q →
        (∀ c ∈ p, isDropped c = false) → (∀ c ∈ q, isDropped c = false) →
        quoteWrapped (p ++ bs :: bs :: 'n' :: q) = false →
        clean_text ⟨p ++ bs :: bs :: 'n' :: q⟩ = ⟨p ++ '\n' :: q⟩) ∧
    clean_text "x\\\"y" = "x\"y" ∧
    clean_text "a\\\\rb" = "a\nb" ∧
    clean_text "a\\nb" = "a\\nb" := by
  refine ⟨?_, by decide, by decide, by decide⟩
  intro p q hpb hqb hpr hqr hpd hqd hqw
  have hne : (String.mk (p ++ bs :: bs :: 'n' :: q)).isEmpty = false :=
    mk_isEmpty_false (by simp)
  unfold clean_text
  rw [hne]
  simp only [Bool.false_eq_true, if_false]
  rw [hqw]
  simp only [Bool.false_eq_true, if_false]
  rw [unescape_bbn p q hpb hqb hpr hqr]
  have hfil : (p ++ '\n' :: q).filter (fun c => !isDropped c) = p ++ '\n' :: q := by
    rw [List.filter_eq_self]
    intro a ha
    rcases List.mem_append.mp ha with hm | hm
    · simp [hpd a hm]
    · rcases List.mem_cons.mp hm with rfl | hm2
      · decide
      · simp [hqd a hm2]
  rw [hfil]

/-- Witness for C5 (amended) at a concrete doubled-backslash-`n` input. -/
theorem clean_text_doubled_backslash_only_witness :
    clean_text ⟨['a'] ++ bs :: bs :: 'n' :: ['b']⟩ = ⟨['a'] ++ '\n' :: ['b']⟩ :=
  clean_text_doubled_backslash_only.1 ['a'] ['b'] (by decide) (by decide) (by decide)
    (by decide) (by decide) (by decide) (by decide)

/-! ## Claim C3: idempotence of the text sanitizer stages -/

/-- Whether a string starts with two backticks. -/
def startsTwoTicks : List Char → Bool
  | d :: e :: _ => d = tick && e = tick
  | _ => false

/-- No three consecutive backticks anywhere. -/
def noTriple : List Char → Bool
  | [] => true
  | c :: rest => if c = tick && startsTwoTicks rest then false else noTriple rest

/-- Length of the leading backtick run. -/
def leadTicks : List Char → Nat
  | [] => 0
  | c :: rest => if c = tick then leadTicks rest + 1 else 0

theorem leadTicks_cons_tick (xs : List Char) : leadTicks (tick :: xs) = leadTicks xs + 1 := by
  simp [leadTicks]

theorem leadTicks_cons_ne {c : Char} (h : c ≠ tick) (xs : List Char) :
    leadTicks (c :: xs) = 0 := by
  simp [leadTicks, h]

theorem noTriple_cons (c : Char) (xs : List Char) :
    noTriple (c :: xs) = if c = tick && startsTwoTicks xs then false else noTriple xs := rfl

theorem noTriple_tail {c : Char} {xs : List Char} (h : noTriple (c :: xs) = true) :
    noTriple xs = true := by
  rw [noTriple_cons] at h
  by_cases hc : (c = tick && startsTwoTicks xs) = true
  · rw [if_pos hc] at h
    cases h
  · rwa [if_neg hc] at h

theorem noTriple_cons_ne {c : Char} (h : c ≠ tick) (xs : List Char) :
    noTriple (c :: xs) = noTriple xs := by
  rw [noTriple_cons]
  simp [h]

theorem startsTwoTicks_false_of_leadTicks_le {xs : List Char} (h : leadTicks xs ≤ 1) :
    startsTwoTicks xs = false := by
  cases xs with
  | nil => rfl
  | cons d r2 =>
    cases r2 with
    | nil => rfl
    | cons e r3 =>
      by_cases hd : d = tick
      · by_cases he : e = tick
        · subst hd
          subst he
          rw [leadTicks_cons_tick, leadTicks_cons_tick] at h
          omega
        · simp [startsTwoTicks, he]
      · simp [startsTwoTicks, hd]

theorem noTriple_cons_tick {xs : List Char} (h1 : leadTicks xs ≤ 1)
    (h2 : noTriple xs = true) : noTriple (tick :: xs) = true := by
  rw [noTriple_cons, startsTwoTicks_false_of_leadTicks_le h1]
  simpa using h2

theorem fenceStep_some_shape {c : Char} {rest out : List Char} {k : Nat}
    (h : fenceStep c rest = some (out, k)) :
    out = [] ∧ c = tick ∧ ∃ r2, rest = tick :: tick :: r2 := by
  unfold fenceStep at h
  split at h
  · rename_i hc
    split at h
    · rename_i d e rtail
      split at h
      · rename_i hde
        simp only [Option.some.injEq, Prod.mk.injEq] at h
        simp only [Bool.and_eq_true, decide_eq_true_eq] at hde
        exact ⟨h.1.symm, hc, rtail, by rw [hde.1, hde.2]⟩
      · cases h
    · cases h
  · cases h

theorem fenceStep_none_of_ne_tick {c : Char} (h : c ≠ tick) (rest : List Char) :
    fenceStep c rest = none := by
  simp [fenceStep, h]
theorem subFence_cons (c : Char) (rest : List Char) :
    subFence (c :: rest) =
      match fenceStep c rest with
      | some (out, k) => out ++ subFence (rest.drop k)
      | none => c :: subFence rest :=
  scan_cons _ c rest

theorem subFence_inv : ∀ (n : Nat) (l : List Char), l.length ≤ n →
    noTriple (subFence l) = true ∧ leadTicks (subFence l) ≤ 2 ∧
      (leadTicks l < 3 → leadTicks (subFence l) = leadTicks l) := by
  intro n
  induction n with
  | zero =>
    intro l h
    have hl : l = [] := List.eq_nil_of_length_eq_zero (Nat.le_zero.mp h)
    subst hl
    exact ⟨rfl, by decide, fun _ => rfl⟩
  | succ n ih =>
    intro l hlen
    cases l with
    | nil => exact ⟨rfl, by decide, fun _ => rfl⟩
    | cons c rest =>
      simp only [List.length_cons, Nat.add_le_add_iff_right] at hlen
      rw [subFence_cons]
      cases hs : fenceStep c rest with
      | some ok =>
        obtain ⟨out, k⟩ := ok
        obtain ⟨ho, hc, r2, hr⟩ := fenceStep_some_shape hs
        subst ho
        have hdrop : (rest.drop k).length ≤ n := by
          have := List.length_drop k rest
          omega
        obtain ⟨i1, i2, _⟩ := ih (rest.drop k) hdrop
        refine ⟨by simpa using i1, by simpa using i2, ?_⟩
        intro hlt
        exfalso
        rw [hc, hr, leadTicks_cons_tick, leadTicks_cons_tick, leadTicks_cons_tick] at hlt
        omega
      | none =>
        obtain ⟨i1, i2, i3⟩ := ih rest hlen
        by_cases hc : c = tick
        · have hr1 : leadTicks rest ≤ 1 := by
            cases rest with
            | nil => simp [leadTicks]
            | cons d r2 =>
              by_cases hd : d = tick
              · cases r2 with
                | nil => simp [leadTicks, hd]
                | cons e r3 =>
                  by_cases he : e = tick
                  · exfalso
                    rw [show fenceStep c (d :: e :: r3) =
                      some ([], 2 + ((r3.takeWhile isWordChar).length) +
                        (if (r3.drop ((r3.takeWhile isWordChar).length)).head? = some '\n'
                         then 1 else 0)) from by simp [fenceStep, hc, hd, he]] at hs
                    cases hs
                  · subst hd
                    rw [leadTicks_cons_tick, leadTicks_cons_ne he]
              · simp [leadTicks, hd]
          have hlr := i3 (by omega)
          refine ⟨?_, ?_, ?_⟩
          · rw [hc]
            exact noTriple_cons_tick (by omega) i1
          · rw [hc, leadTicks_cons_tick]
            omega
          · intro _
            rw [hc, leadTicks_cons_tick, leadTicks_cons_tick, hlr]
        · refine ⟨?_, ?_, ?_⟩
          · rw [noTriple_cons_ne hc]
            exact i1
          · rw [leadTicks_cons_ne hc]
            omega
          · intro _
            rw [leadTicks_cons_ne hc, leadTicks_cons_ne hc]
theorem subFence_id_of_noTriple : ∀ l : List Char, noTriple l = true → subFence l = l := by
  intro l
  induction l with
  | nil => intro _; rfl
  | cons c rest ih =>
    intro h
    rw [subFence_cons]
    cases hs : fenceStep c rest with
    | some ok =>
      obtain ⟨out, k⟩ := ok
      obtain ⟨_, hc, r2, hr⟩ := fenceStep_some_shape hs
      exfalso
      rw [hc, hr, noTriple_cons] at h
      have : startsTwoTicks (tick :: tick :: r2) = true := by simp [startsTwoTicks]
      simp [this] at h
    | none =>
      rw [ih (noTriple_tail h)]

theorem tick3_prefix_eq (c : Char) (rest : List Char) :
    tick3.isPrefixOf (c :: rest) = (c = tick && startsTwoTicks rest) := by
  cases rest with
  | nil => simp [tick3, List.isPrefixOf, startsTwoTicks]
  | cons d r2 =>
    cases r2 with
    | nil =>
      simp [tick3, List.isPrefixOf, startsTwoTicks]
    | cons e r3 =>
      by_cases h1 : c = tick <;> by_cases h2 : d = tick <;> by_cases h3 : e = tick <;>
        simp only [tick3, List.isPrefixOf, startsTwoTicks, h1, h2, h3, beq_iff_eq,
          beq_self_eq_true, Bool.true_and, Bool.and_true, decide_eq_true_eq,
          Bool.and_eq_true, decide_True, decide_False, Bool.and_false, Bool.false_and,
          beq_eq_false_iff_ne] <;>
        first
          | rfl
          | (exact Ne.symm h1)
          | (exact Ne.symm h2)
          | (exact Ne.symm h3)
          | simp [beq_iff_eq, Ne.symm h2]
          | simp [beq_iff_eq, Ne.symm h3]

theorem replaceAll_tick3_id_of_noTriple : ∀ l : List Char, noTriple l = true →
    replaceAll tick3 [] l = l := by
  intro l
  induction l with
  | nil => intro _; rfl
  | cons c rest ih =>
    intro h
    rw [scan_cons_replace]
    have hstep : replaceStep tick3 [] c rest = none := by
      unfold replaceStep
      rw [if_neg]
      intro hcond
      simp only [Bool.and_eq_true] at hcond
      have h2 := hcond.2
      rw [tick3_prefix_eq] at h2
      rw [noTriple_cons, h2] at h
      cases h
    rw [hstep, ih (noTriple_tail h)]

theorem strip_code_fences_fixed_of_noTriple (t : String) (h : noTriple t.data = true) :
    strip_code_fences t = t := by
  by_cases he : t.isEmpty
  · unfold strip_code_fences
    rw [if_pos he]
    exact ((String.isEmpty_iff _).mp he).symm
  · unfold strip_code_fences
    rw [if_neg he]
    rw [subFence_id_of_noTriple _ h, replaceAll_tick3_id_of_noTriple _ h]

theorem strip_code_fences_noTriple (s : String) :
    noTriple (strip_code_fences s).data = true := by
  by_cases he : s.isEmpty
  · unfold strip_code_fences
    rw [if_pos he]
    rfl
  · unfold strip_code_fences
    rw [if_neg he]
    have h1 := (subFence_inv s.data.length s.data (le_refl _)).1
    show noTriple (replaceAll tick3 [] (subFence s.data)) = true
    rw [replaceAll_tick3_id_of_noTriple _ h1]
    exact h1
theorem subWordTok_id {tok l : List Char} (h : '@' ∉ l) : subWordTok tok l = l :=
  scan_id_none _ _ (fun c hc r =>
    wordTokStep_none_of_ne_at (fun he => h (by rw [← he]; exact hc)) r)

theorem subMention_id {l : List Char} (h : '@' ∉ l) : subMention l = l :=
  scan_id_none _ _ (fun c hc r =>
    mentionStep_none_of_ne_at (fun he => h (by rw [← he]; exact hc)) r)

theorem subFence_id_no_tick {l : List Char} (h : tick ∉ l) : subFence l = l :=
  scan_id_none _ _ (fun c hc r =>
    fenceStep_none_of_ne_tick (fun he => h (by rw [← he]; exact hc)) r)

theorem strip_mentions_id {s : String} (h : '@' ∉ s.data) : strip_mentions s = s := by
  by_cases he : s.isEmpty
  · unfold strip_mentions
    rw [if_pos he]
    exact ((String.isEmpty_iff _).mp he).symm
  · unfold strip_mentions
    rw [if_neg he, subWordTok_id h, subWordTok_id h, subMention_id h]

theorem strip_code_fences_id_no_tick {s : String} (h : tick ∉ s.data) :
    strip_code_fences s = s := by
  by_cases he : s.isEmpty
  · unfold strip_code_fences
    rw [if_pos he]
    exact ((String.isEmpty_iff _).mp he).symm
  · unfold strip_code_fences
    rw [if_neg he, subFence_id_no_tick h,
      show tick3 = tick :: [tick, tick] from rfl,
      replaceAll_id_of_head_not_mem _ _ h]

theorem clean_text_id {s : String} (hb : bs ∉ s.data) (hr : '\r' ∉ s.data)
    (hd : ∀ c ∈ s.data, isDropped c = false) (hq : quoteWrapped s.data = false) :
    clean_text s = s := by
  by_cases he : s.isEmpty
  · unfold clean_text
    rw [if_pos he]
    exact ((String.isEmpty_iff _).mp he).symm
  · unfold clean_text
    rw [if_neg he, hq]
    simp only [Bool.false_eq_true, if_false]
    have h1 : unescapePipeline s.data = s.data := by
      unfold unescapePipeline
      rw [replaceAll_id_of_head_not_mem _ _ hb, replaceAll_id_of_head_not_mem _ _ hb,
        replaceAll_id_of_head_not_mem _ _ hb, replaceAll_id_of_head_not_mem _ _ hb,
        replaceAll_id_of_head_not_mem _ _ hb, replaceAll_id_of_head_not_mem _ _ hr,
        replaceAll_id_of_head_not_mem _ _ hr]
    rw [h1, List.filter_eq_self.mpr (by intro a ha; simp [hd a ha])]

/-- **C3** is `corrected`: `strip_mentions` is not idempotent — on
`"@@a"` the first pass leaves `"@a"` (the leading `@` shields the
second from matching at that position), and a second pass strips it. -/
theorem strip_mentions_not_idempotent :
    strip_mentions (strip_mentions "@@a") ≠ strip_mentions "@@a" := by decide

/-- **C3** (amended): `strip_code_fences` is idempotent (its output
never contains a triple backtick, and it fixes such strings), but
`strip_mentions` and `clean_text` are not idempotent in general; the
pipeline is the identity on clean text in the strong sense: no `@`, no
backtick, no backslash, no carriage return, no control/format character
other than newline and tab, and not wrapped in a matching quote pair. -/
theorem text_sanitizer_amended :
    (∀ s : String, strip_code_fences (strip_code_fences s) = strip_code_fences s) ∧
    (∀ s : String, '@' ∉ s.data → tick ∉ s.data → bs ∉ s.data → '\r' ∉ s.data →
        (∀ c ∈ s.data, isDropped c = false) → quoteWrapped s.data = false →
        clean_text (strip_code_fences (strip_mentions s)) = s) := by
  constructor
  · intro s
    exact strip_code_fences_fixed_of_noTriple _ (strip_code_fences_noTriple s)
  · intro s h1 h2 h3 h4 h5 h6
    rw [strip_mentions_id h1, strip_code_fences_id_no_tick h2, clean_text_id h3 h4 h5 h6]

/-- Witness for C3 (amended) on an already-clean string. -/
theorem text_sanitizer_amended_witness :
    clean_text (strip_code_fences (strip_mentions "hello world")) = "hello world" :=
  text_sanitizer_amended.2 "hello world" (by decide) (by decide) (by decide) (by decide)
    (by decide) (by decide)

end D2S
